import Mathlib

/-!
Shallow embedding of the persistence / merge-synchronization core of the
receipt-ledger application (`src/services/historyService.ts`, revision 1.3,
together with the earlier revision 1.0 of `importHistoryData` where a claim
cites it).

Modelling conventions:
* `localStorage` is an association list from string keys to stored values.
  A stored value is either the JSON serialization of an array of records
  (`StoredVal.records`), an unparseable string (`StoredVal.notJson`, on which
  `JSON.parse` throws), or a parseable value that is not an array
  (`StoredVal.nonArray`).
* JavaScript record objects become the structure `ReceiptAnalysis` mirroring
  `src/types.ts`; optional fields become `Option`.  A falsy `id` (absent or
  the empty string: both behave identically in every truthiness test the
  source performs) is modelled as `none`.
* The ambient authenticated session (`getCurrentUser` from `authService`,
  whose source is not part of the repository snapshot) is modelled from the
  spec's Identity Provider interface as an `Option String` (the stable user
  id) carried in the state.
* `localStorage.setItem` can throw a quota error when the store is full; the
  state carries an optional capacity (measured in number of stored records)
  and `trySetItem` fails when the write would exceed it.  `quota = none`
  means ample space (writes always succeed).
* JavaScript exceptions become the `Res` result type, which keeps the state
  at throw time (side effects performed before a throw persist, exactly as
  real `localStorage` mutations do).
* `Array.prototype.sort` with the comparator
  `(a, b) => (b.timestamp || 0) - (a.timestamp || 0)` is a stable descending
  sort on the defaulted timestamp; it is embedded as a stable merge sort with
  the corresponding `le` relation.
* `Map` (insertion-ordered, last `set` wins, `set` on an existing key keeps
  its position) is embedded as an association list with `setAssoc`.
-/

/-- Mirror of `ReceiptItem` in `src/types.ts`. -/
structure ReceiptItem where
  category : String
  store : String
  name : String
  originalName : String
  priceTwd : Int
  originalPriceJpy : Int
  note : String
deriving DecidableEq, Repr

/-- Mirror of `ReceiptAnalysis` in `src/types.ts`.  Optional fields are
`Option`; a falsy `id` is modelled as `none`. -/
structure ReceiptAnalysis where
  id : Option String
  userId : Option String
  timestamp : Option Nat
  exchangeRate : Int
  sourceUrl : Option String
  date : String
  time : Option String
  totalTwd : Int
  totalJpy : Option Int
  items : List ReceiptItem
deriving DecidableEq, Repr

/-- A value stored under one `localStorage` key. -/
inductive StoredVal where
  /-- The JSON serialization of an array of records. -/
  | records (l : List ReceiptAnalysis)
  /-- An unparseable string (`JSON.parse` throws). -/
  | notJson
  /-- Parseable JSON that is not an array. -/
  | nonArray
deriving DecidableEq, Repr

/-- The `localStorage` contents. -/
abbrev Storage := List (String × StoredVal)

/-- `localStorage.getItem` (`null` becomes `none`). -/
def getItem : Storage → String → Option StoredVal
  | [], _ => none
  | (k', v) :: rest, k => if k' = k then some v else getItem rest k

/-- `localStorage.setItem` as a pure store update (capacity checked
separately): replaces the value under the key, or appends a fresh entry. -/
def setItem : Storage → String → StoredVal → Storage
  | [], k, v => [(k, v)]
  | (k', v') :: rest, k, v =>
    if k' = k then (k, v) :: rest else (k', v') :: setItem rest k v

/-- `localStorage.removeItem`. -/
def removeItem : Storage → String → Storage
  | [], _ => []
  | (k', v) :: rest, k =>
    if k' = k then removeItem rest k else (k', v) :: removeItem rest k

/-- Size of one stored value, in records (abstract measure for the quota). -/
def valSize : StoredVal → Nat
  | .records l => l.length
  | .notJson => 1
  | .nonArray => 1

/-- Total size of the store, in records. -/
def storeSize (st : Storage) : Nat :=
  (st.map (fun p => valSize p.2)).sum

/-- Whole mutable world: `localStorage` plus the ambient authenticated
session (`getCurrentUser`, modelled from the spec's Identity Provider
interface: `currentIdentity() -> {id, ...} | None`), plus the storage
capacity. -/
structure State where
  store : Storage
  currentUser : Option String
  quota : Option Nat
deriving DecidableEq

/-- JavaScript exceptions distinguishable in the source. -/
inductive JsError where
  /-- `JSON.parse` threw. -/
  | parseError
  /-- A non-array value was used where an array is required
  (`forEach` / spread throws a `TypeError`). -/
  | typeError
  /-- `localStorage.setItem` rejected the write (store full). -/
  | quotaExceeded
  /-- The format error thrown by `importHistoryData`'s catch block. -/
  | formatError
deriving DecidableEq, Repr

/-- Result of an operation: JavaScript exceptions keep the state at throw
time (side effects performed before the throw persist). -/
inductive Res (α : Type) where
  | ok (val : α) (s : State)
  | err (e : JsError) (s : State)
deriving DecidableEq

/-- `localStorage.setItem` with the capacity check: `none` when the write is
rejected (the store is unchanged, as `localStorage` guarantees). -/
def trySetItem (s : State) (k : String) (v : StoredVal) : Option State :=
  let st' := setItem s.store k v
  match s.quota with
  | none => some { s with store := st' }
  | some q => if storeSize st' ≤ q then some { s with store := st' } else none

/-- Key `japan_receipt_history_v1` (`STORAGE_KEYS.CURRENT_LOCAL`). -/
def CURRENT_LOCAL : String := "japan_receipt_history_v1"

/-- Cloud namespace key: `'japan_receipt_cloud_' + userId`. -/
def cloudKey (userId : String) : String := "japan_receipt_cloud_" ++ userId

/-- The two superseded local keys (`STORAGE_KEYS.LEGACY_LOCAL`), in scan
order. -/
def LEGACY_ONE : String := "japan_receipt_history"

/-- Second superseded local key. -/
def LEGACY_TWO : String := "receipt_history"

/-- `user ? CLOUD_PREFIX + user.id : CURRENT_LOCAL`. -/
def storageKeyOf : Option String → String
  | some u => cloudKey u
  | none => CURRENT_LOCAL

/-- `json ? JSON.parse(json) : []` guarded by `try/catch` and
`Array.isArray` (as in `getHistory`, rev 1.3, lines 178-185): absent,
unparseable and non-array stored values all read as `[]`. -/
def parseHistory : Option StoredVal → List ReceiptAnalysis
  | some (.records l) => l
  | some .notJson => []
  | some .nonArray => []
  | none => []

/-- Sort key: `item.timestamp || 0`. -/
def sortKey (r : ReceiptAnalysis) : Nat := r.timestamp.getD 0

/-- Stable insertion into a descending-sorted list: the element goes after
every strictly larger key and before equal keys (matching how a stable sort
orders it relative to the elements that follow it). -/
def insertDesc (x : ReceiptAnalysis) : List ReceiptAnalysis → List ReceiptAnalysis
  | [] => [x]
  | y :: ys => if sortKey x < sortKey y then y :: insertDesc x ys else x :: y :: ys

/-- `history.sort((a, b) => (b.timestamp || 0) - (a.timestamp || 0))`:
JavaScript `sort` is a stable sort, and a stable sort under a fixed total
preorder is extensionally unique, so the stable insertion sort below is the
same function. -/
def sortDesc : List ReceiptAnalysis → List ReceiptAnalysis
  | [] => []
  | x :: xs => insertDesc x (sortDesc xs)

/-- One iteration of the legacy-migration loop of `getHistory` (rev 1.3,
lines 189-200): a well-formed legacy collection is appended and its key
removed; parseable non-array data is discarded but its key still removed;
an unparseable value throws inside the per-key `try`, is swallowed by the
`catch`, and its key is left in place. -/
def absorbLegacy (st : Storage) (hist : List ReceiptAnalysis) (k : String) :
    List ReceiptAnalysis × Storage :=
  match getItem st k with
  | none => (hist, st)
  | some (.records l) => (hist ++ l, removeItem st k)
  | some .nonArray => (hist, removeItem st k)
  | some .notJson => (hist, st)

/-- The whole legacy-migration loop (`for legacyKey of LEGACY_LOCAL`)
starting from the empty accumulator: the absorbed records and the store
after the legacy keys have been retired. -/
def migrateAcc (st : Storage) : List ReceiptAnalysis × Storage :=
  let p₁ := absorbLegacy st [] LEGACY_ONE
  absorbLegacy p₁.2 p₁.1 LEGACY_TWO

/-- `getHistory` (rev 1.3, lines 173-207): resolve the namespace from the
ambient user, read it (malformed reads as empty), run legacy migration when
anonymous and empty (writing the absorbed, still unsorted, accumulator back
when non-empty — that write can throw on quota), and return the collection
sorted by defaulted timestamp descending. -/
def getHistory (s : State) : Res (List ReceiptAnalysis) :=
  let key := storageKeyOf s.currentUser
  let history := parseHistory (getItem s.store key)
  match s.currentUser with
  | some _ => .ok (sortDesc history) s
  | none =>
    if history.isEmpty then
      let p := migrateAcc s.store
      if p.1.isEmpty then
        .ok (sortDesc p.1) { s with store := p.2 }
      else
        match trySetItem { s with store := p.2 } CURRENT_LOCAL (.records p.1) with
        | some s' => .ok (sortDesc p.1) s'
        | none => .err .quotaExceeded { s with store := p.2 }
    else
      .ok (sortDesc history) s

example :
    getHistory { store := [(CURRENT_LOCAL, .notJson)], currentUser := none,
                 quota := none } =
      .ok [] { store := [(CURRENT_LOCAL, .notJson)], currentUser := none,
               quota := none } := by
  decide

/-- JavaScript `Map` as an insertion-ordered association list.  `set` on a
present key replaces the value in place; on an absent key it appends. -/
def setAssoc : List (String × ReceiptAnalysis) → String → ReceiptAnalysis →
    List (String × ReceiptAnalysis)
  | [], k, v => [(k, v)]
  | (k', v') :: rest, k, v =>
    if k' = k then (k, v) :: rest else (k', v') :: setAssoc rest k v

/-- `Map.get`. -/
def lookupAssoc : List (String × ReceiptAnalysis) → String → Option ReceiptAnalysis
  | [], _ => none
  | (k', v) :: rest, k => if k' = k then some v else lookupAssoc rest k

/-- `Map.has`. -/
def hasAssoc (m : List (String × ReceiptAnalysis)) (k : String) : Bool :=
  (lookupAssoc m k).isSome

/-- `Array.from(map.values())`. -/
def valuesOf (m : List (String × ReceiptAnalysis)) : List ReceiptAnalysis :=
  m.map (fun p => p.2)

/-- `items.forEach(item => { if (item.id) map.set(item.id, f(item)) })`:
the unconditional-merge pass used by `importHistoryData` (with `f` stamping
the ambient user id) and by the cloud pass of `syncLocalToCloud` (with `f`
the identity function). -/
def mergeSetFold (f : ReceiptAnalysis → ReceiptAnalysis)
    (init : List (String × ReceiptAnalysis)) (items : List ReceiptAnalysis) :
    List (String × ReceiptAnalysis) :=
  items.foldl (fun acc item =>
    match item.id with
    | some i => setAssoc acc i (f item)
    | none => acc) init

/-- `localData.forEach(item => { if (item.id && !map.has(item.id))
map.set(item.id, { ...item, userId }) })`: the keep-if-absent pass of
`syncLocalToCloud` (rev 1.3, line 226). -/
def mergeKeepFold (userId : String)
    (init : List (String × ReceiptAnalysis)) (items : List ReceiptAnalysis) :
    List (String × ReceiptAnalysis) :=
  items.foldl (fun acc item =>
    match item.id with
    | some i =>
      if hasAssoc acc i then acc else setAssoc acc i { item with userId := some userId }
    | none => acc) init

/-- `{ ...item, userId: user?.id }` (sets the field to `undefined` when no
user is logged in). -/
def stampUser (u : Option String) (r : ReceiptAnalysis) : ReceiptAnalysis :=
  { r with userId := u }

/-- `syncLocalToCloud` (rev 1.3, lines 212-233).  Note the source reads the
"local" snapshot through `getHistory()`, which resolves the namespace from
the ambient user: when a user is logged in it reads the cloud namespace, not
the anonymous one.  The cloud value is read with a bare `JSON.parse` inside
`try/catch` and no `Array.isArray` check, so a parseable non-array cloud
value later throws a `TypeError` at `cloudData.forEach`.  The merge seeds
the map from the cloud collection unchanged, then inserts each local record
only if its id is absent (stamping `userId` on those).  Finally the merged
list is written to the cloud key and the anonymous key is removed. -/
def syncLocalToCloud (userId : String) (s : State) : Res (List ReceiptAnalysis) :=
  match getHistory s with
  | .err e s' => .err e s'
  | .ok localData s₁ =>
    match getItem s₁.store (cloudKey userId) with
    | some .nonArray => .err .typeError s₁
    | cv =>
      let cloudData := parseHistory cv
      let m₁ := mergeSetFold (fun item => item) [] cloudData
      let m₂ := mergeKeepFold userId m₁ localData
      let mergedList := sortDesc (valuesOf m₂)
      match trySetItem s₁ (cloudKey userId) (.records mergedList) with
      | none => .err .quotaExceeded s₁
      | some s₂ => .ok mergedList { s₂ with store := removeItem s₂.store CURRENT_LOCAL }

/-- `'rec_' + Date.now() + '_' + Math.random().toString(36).substr(2, 4)`,
with the clock reading and the random suffix as explicit inputs. -/
def genId (now : Nat) (rnd : String) : String :=
  "rec_" ++ toString now ++ "_" ++ rnd

/-- `saveReceiptToHistory` (rev 1.3, lines 238-253): resolve the namespace
from the ambient user, read the current collection through `getHistory()`,
build the new record (`id: data.id || generated`, `timestamp: Date.now()`,
`userId: user?.id`), prepend it and write the whole collection back.  There
is no `try/catch`: a rejected write propagates to the caller. -/
def saveReceiptToHistory (data : ReceiptAnalysis) (now : Nat) (rnd : String)
    (s : State) : Res ReceiptAnalysis :=
  let key := storageKeyOf s.currentUser
  match getHistory s with
  | .err e s' => .err e s'
  | .ok history s₁ =>
    let newRecord : ReceiptAnalysis :=
      { data with
        id := some (data.id.getD (genId now rnd)),
        timestamp := some now,
        userId := s.currentUser }
    match trySetItem s₁ key (.records (newRecord :: history)) with
    | none => .err .quotaExceeded s₁
    | some s₂ => .ok newRecord s₂

/-- `deleteFromHistory` (rev 1.3, lines 258-265): read through
`getHistory()`, filter out records whose id strictly equals the argument,
write the remainder back and return it. -/
def deleteFromHistory (id : String) (s : State) : Res (List ReceiptAnalysis) :=
  let key := storageKeyOf s.currentUser
  match getHistory s with
  | .err e s' => .err e s'
  | .ok history s₁ =>
    let updated := history.filter (fun r => r.id ≠ some id)
    match trySetItem s₁ key (.records updated) with
    | none => .err .quotaExceeded s₁
    | some s₂ => .ok updated s₂

/-- A backup payload, as far as `JSON.parse` distinguishes the cases the
source inspects (`version` and `exportDate` are carried along by export but
never read by import, so they are omitted). -/
inductive Payload where
  /-- An unparseable string (`JSON.parse` throws). -/
  | notJson
  /-- A bare JSON array of records. -/
  | jsonArray (l : List ReceiptAnalysis)
  /-- A JSON object whose `data` field is a record array (`some`) or
  absent/falsy (`none`). -/
  | jsonObj (data : Option (List ReceiptAnalysis))
  /-- A JSON object whose `data` field is truthy but not an array
  (spreading it throws a `TypeError`). -/
  | jsonObjBadData
deriving DecidableEq

/-- `exportHistoryData` (rev 1.3, lines 315-321): serialize
`{ version, data: getHistory(), exportDate }`. -/
def exportHistoryData (s : State) : Res Payload :=
  match getHistory s with
  | .err e s' => .err e s'
  | .ok history s₁ => .ok (.jsonObj (some history)) s₁

/-- `importHistoryData` (rev 1.3, lines 326-345): parse the payload, accept
either a bare array or an object's `data` field (defaulting to `[]` when
absent), read the current collection through `getHistory()`, merge both
lists into a `Map` keyed by id — **later `set` wins**, and every inserted
record is re-stamped with `userId: user?.id` — then sort and write back.
The surrounding `try/catch` rethrows every failure as the single format
error. -/
def importHistoryData (p : Payload) (s : State) : Res (List ReceiptAnalysis) :=
  let r : Res (List ReceiptAnalysis) :=
    match p with
    | .notJson => .err .parseError s
    | _ =>
      match getHistory s with
      | .err e s' => .err e s'
      | .ok currentHistory s₁ =>
        match p with
        | .jsonObjBadData => .err .typeError s₁
        | _ =>
          let dataToImport := match p with
            | .jsonArray l => l
            | .jsonObj d => d.getD []
            | _ => []
          let m := mergeSetFold (stampUser s.currentUser) []
            (currentHistory ++ dataToImport)
          let mergedList := sortDesc (valuesOf m)
          match trySetItem s₁ (storageKeyOf s.currentUser) (.records mergedList) with
          | none => .err .quotaExceeded s₁
          | some s₂ => .ok mergedList s₂
  match r with
  | .ok v s' => .ok v s'
  | .err _ s' => .err .formatError s'

/-- `importHistoryData` of the earlier revision 1.0 (lines 53-77): requires
a parsed object with an array `data` field and throws the format error
otherwise (before touching storage); the merge does not stamp `userId`; the
namespace is taken from an explicit `userId` parameter rather than the
ambient session, and the current collection is read without sorting or
migration. -/
def importHistoryData_v1_0 (p : Payload) (userId : Option String) (s : State) :
    Res (List ReceiptAnalysis) :=
  let r : Res (List ReceiptAnalysis) :=
    match p with
    | .notJson => .err .parseError s
    | .jsonArray _ => .err .formatError s
    | .jsonObjBadData => .err .formatError s
    | .jsonObj none => .err .formatError s
    | .jsonObj (some dataArr) =>
      match getItem s.store (storageKeyOf userId) with
      | some .nonArray => .err .typeError s
      | cv =>
        let currentHistory := parseHistory cv
        let m := mergeSetFold (fun item => item) [] (currentHistory ++ dataArr)
        let mergedList := sortDesc (valuesOf m)
        match trySetItem s (storageKeyOf userId) (.records mergedList) with
        | none => .err .quotaExceeded s
        | some s₂ => .ok mergedList s₂
  match r with
  | .ok v s' => .ok v s'
  | .err _ s' => .err .formatError s'

/-- The ids carried by the records of a collection. -/
def idsOf (l : List ReceiptAnalysis) : List String :=
  l.filterMap (fun r => r.id)

/-! ### Storage lemmas -/

theorem getItem_setItem_self (st : Storage) (k : String) (v : StoredVal) :
    getItem (setItem st k v) k = some v := by
  induction st with
  | nil => simp [setItem, getItem]
  | cons p rest ih =>
    obtain ⟨k', v'⟩ := p
    by_cases h : k' = k <;> simp [setItem, getItem, h, ih]

theorem getItem_setItem_ne (st : Storage) {k k' : String} (v : StoredVal)
    (h : k' ≠ k) : getItem (setItem st k v) k' = getItem st k' := by
  have hne : ¬ k = k' := fun hh => h hh.symm
  induction st with
  | nil => simp [setItem, getItem, hne]
  | cons p rest ih =>
    obtain ⟨k₀, v₀⟩ := p
    by_cases h₀ : k₀ = k
    · subst h₀
      simp [setItem, getItem, hne]
    · simp only [setItem, if_neg h₀, getItem]
      by_cases h₁ : k₀ = k' <;> simp [h₁, ih]

theorem getItem_removeItem_ne (st : Storage) {k k' : String} (h : k' ≠ k) :
    getItem (removeItem st k) k' = getItem st k' := by
  have hne : ¬ k = k' := fun hh => h hh.symm
  induction st with
  | nil => simp [removeItem]
  | cons p rest ih =>
    obtain ⟨k₀, v₀⟩ := p
    by_cases h₀ : k₀ = k
    · subst h₀
      simp [removeItem, getItem, hne, ih]
    · simp only [removeItem, if_neg h₀, getItem]
      by_cases h₁ : k₀ = k' <;> simp [h₁, ih]

theorem trySetItem_quota_none (s : State) (k : String) (v : StoredVal)
    (h : s.quota = none) :
    trySetItem s k v = some { s with store := setItem s.store k v } := by
  simp [trySetItem, h]

/-! ### Sort lemmas -/

theorem insertDesc_perm (x : ReceiptAnalysis) (l : List ReceiptAnalysis) :
    (insertDesc x l).Perm (x :: l) := by
  induction l with
  | nil => simp [insertDesc]
  | cons y ys ih =>
    by_cases h : sortKey x < sortKey y
    · simp only [insertDesc, if_pos h]
      exact ((ih.cons y).trans (List.Perm.swap x y ys))
    · simp [insertDesc, if_neg h]

theorem sortDesc_perm (l : List ReceiptAnalysis) : (sortDesc l).Perm l := by
  induction l with
  | nil => simp [sortDesc]
  | cons x xs ih => exact (insertDesc_perm x (sortDesc xs)).trans (ih.cons x)

theorem mem_sortDesc {a : ReceiptAnalysis} {l : List ReceiptAnalysis} :
    a ∈ sortDesc l ↔ a ∈ l := (sortDesc_perm l).mem_iff

theorem insertDesc_pairwise (x : ReceiptAnalysis) {l : List ReceiptAnalysis}
    (h : l.Pairwise (fun a b => sortKey b ≤ sortKey a)) :
    (insertDesc x l).Pairwise (fun a b => sortKey b ≤ sortKey a) := by
  induction l with
  | nil => simp [insertDesc]
  | cons y ys ih =>
    rcases List.pairwise_cons.mp h with ⟨hy, hys⟩
    by_cases hlt : sortKey x < sortKey y
    · simp only [insertDesc, if_pos hlt]
      refine List.pairwise_cons.mpr ⟨?_, ih hys⟩
      intro z hz
      rcases List.mem_cons.mp ((insertDesc_perm x ys).mem_iff.mp hz) with hzx | hzys
      · exact hzx ▸ Nat.le_of_lt hlt
      · exact hy z hzys
    · simp only [insertDesc, if_neg hlt]
      refine List.pairwise_cons.mpr ⟨?_, h⟩
      intro z hz
      rcases List.mem_cons.mp hz with hzy | hzys
      · exact hzy ▸ Nat.le_of_not_lt hlt
      · exact le_trans (hy z hzys) (Nat.le_of_not_lt hlt)

theorem sortDesc_pairwise (l : List ReceiptAnalysis) :
    (sortDesc l).Pairwise (fun a b => sortKey b ≤ sortKey a) := by
  induction l with
  | nil => simp [sortDesc]
  | cons x xs ih => exact insertDesc_pairwise x ih

theorem idsOf_sortDesc_mem {k : String} {l : List ReceiptAnalysis} :
    k ∈ idsOf (sortDesc l) ↔ k ∈ idsOf l := by
  constructor <;> intro h <;> rcases List.mem_filterMap.mp h with ⟨r, hr, hid⟩
  · exact List.mem_filterMap.mpr ⟨r, mem_sortDesc.mp hr, hid⟩
  · exact List.mem_filterMap.mpr ⟨r, mem_sortDesc.mpr hr, hid⟩

/-! ### Map lemmas -/

/-- The last record of a list whose (truthy) id equals `k` — the record whose
field values a last-`set`-wins `Map` merge keeps for that key. -/
def lastIdMatch (k : String) : List ReceiptAnalysis → Option ReceiptAnalysis
  | [] => none
  | r :: rest =>
    match lastIdMatch k rest with
    | some r' => some r'
    | none => if r.id = some k then some r else none

theorem lookup_setAssoc (m : List (String × ReceiptAnalysis)) (k k' : String)
    (v : ReceiptAnalysis) :
    lookupAssoc (setAssoc m k v) k' = if k = k' then some v else lookupAssoc m k' := by
  induction m with
  | nil => simp [setAssoc, lookupAssoc]
  | cons p rest ih =>
    obtain ⟨k₀, v₀⟩ := p
    by_cases h₀ : k₀ = k
    · subst h₀
      by_cases h₁ : k₀ = k' <;> simp [setAssoc, lookupAssoc, h₁]
    · simp only [setAssoc, if_neg h₀, lookupAssoc]
      by_cases h₁ : k₀ = k'
      · subst h₁
        have : ¬ k = k₀ := fun hh => h₀ hh.symm
        simp [lookupAssoc, this]
      · simp [lookupAssoc, h₁, ih]

theorem lookup_mergeSetFold (f : ReceiptAnalysis → ReceiptAnalysis)
    (items : List ReceiptAnalysis) (init : List (String × ReceiptAnalysis))
    (k : String) :
    lookupAssoc (mergeSetFold f init items) k =
      match lastIdMatch k items with
      | some r => some (f r)
      | none => lookupAssoc init k := by
  induction items generalizing init with
  | nil => simp [mergeSetFold, lastIdMatch]
  | cons r rest ih =>
    simp only [mergeSetFold, List.foldl_cons] at *
    rcases hid : r.id with _ | i
    · simp only [lastIdMatch, ih]
      rcases hrest : lastIdMatch k rest with _ | r'
      · simp [hid]
      · simp
    · simp only [lastIdMatch, ih, lookup_setAssoc]
      rcases hrest : lastIdMatch k rest with _ | r'
      · by_cases hk : i = k
        · subst hk
          simp [hid]
        · have : ¬ r.id = some k := by simp [hid, hk]
          simp [hk, this]
      · simp

theorem lastIdMatch_id {k : String} {l : List ReceiptAnalysis}
    {r : ReceiptAnalysis} (h : lastIdMatch k l = some r) : r.id = some k := by
  induction l with
  | nil => simp [lastIdMatch] at h
  | cons x rest ih =>
    simp only [lastIdMatch] at h
    rcases hrest : lastIdMatch k rest with _ | r'
    · rw [hrest] at h
      by_cases hx : x.id = some k
      · simp only [if_pos hx] at h
        cases h
        exact hx
      · simp [if_neg hx] at h
    · rw [hrest] at h
      cases h
      exact ih hrest

theorem lastIdMatch_isSome_iff {k : String} {l : List ReceiptAnalysis} :
    (lastIdMatch k l).isSome ↔ ∃ r ∈ l, r.id = some k := by
  induction l with
  | nil => simp [lastIdMatch]
  | cons x rest ih =>
    simp only [lastIdMatch]
    rcases hrest : lastIdMatch k rest with _ | r'
    · rw [hrest] at ih
      by_cases hx : x.id = some k
      · simp [hx]
      · simp only [if_neg hx, Option.isSome_none, Bool.false_eq_true, false_iff] at ih ⊢
        intro ⟨r, hr, hid⟩
        rcases List.mem_cons.mp hr with rfl | hmem
        · exact hx hid
        · exact ih ⟨r, hmem, hid⟩
    · rw [hrest] at ih
      simp only [Option.isSome_some, true_iff] at ih ⊢
      obtain ⟨r, hr, hid⟩ := ih
      exact ⟨r, List.mem_cons_of_mem x hr, hid⟩

theorem lastIdMatch_append (k : String) (l₁ l₂ : List ReceiptAnalysis) :
    lastIdMatch k (l₁ ++ l₂) =
      match lastIdMatch k l₂ with
      | some r => some r
      | none => lastIdMatch k l₁ := by
  induction l₁ with
  | nil =>
    simp only [List.nil_append]
    rcases h₂ : lastIdMatch k l₂ with _ | r₂ <;> simp [lastIdMatch, h₂]
  | cons x rest ih =>
    simp only [List.cons_append, lastIdMatch, List.append_eq]
    rw [ih]
    rcases h₂ : lastIdMatch k l₂ with _ | r₂ <;>
      rcases h₁ : lastIdMatch k rest with _ | r₁ <;> simp [h₁, h₂]

theorem lookup_mem {m : List (String × ReceiptAnalysis)} {k : String}
    {v : ReceiptAnalysis} (h : lookupAssoc m k = some v) : (k, v) ∈ m := by
  induction m with
  | nil => simp [lookupAssoc] at h
  | cons p rest ih =>
    obtain ⟨k₀, v₀⟩ := p
    by_cases h₀ : k₀ = k
    · subst h₀
      simp only [lookupAssoc, if_pos rfl] at h
      cases h
      exact List.mem_cons_self _ _
    · simp only [lookupAssoc, if_neg h₀] at h
      exact List.mem_cons_of_mem _ (ih h)

/-- Invariant of the merge maps: each value carries the id it is keyed by. -/
def WfAssoc (m : List (String × ReceiptAnalysis)) : Prop :=
  ∀ p ∈ m, p.2.id = some p.1

theorem wfAssoc_setAssoc {m : List (String × ReceiptAnalysis)} {k : String}
    {v : ReceiptAnalysis} (hm : WfAssoc m) (hv : v.id = some k) :
    WfAssoc (setAssoc m k v) := by
  induction m with
  | nil =>
    intro p hp
    simp only [setAssoc, List.mem_singleton] at hp
    subst hp
    exact hv
  | cons q rest ih =>
    obtain ⟨k₀, v₀⟩ := q
    have hrest : WfAssoc rest := fun p hp => hm p (List.mem_cons_of_mem _ hp)
    by_cases h₀ : k₀ = k
    · subst h₀
      intro p hp
      simp only [setAssoc, if_pos rfl] at hp
      rcases List.mem_cons.mp hp with rfl | hmem
      · exact hv
      · exact hm p (List.mem_cons_of_mem _ hmem)
    · intro p hp
      simp only [setAssoc, if_neg h₀] at hp
      rcases List.mem_cons.mp hp with rfl | hmem
      · exact hm _ (List.mem_cons_self _ _)
      · exact ih hrest p hmem

theorem wfAssoc_mergeSetFold {f : ReceiptAnalysis → ReceiptAnalysis}
    (hf : ∀ r, (f r).id = r.id) (items : List ReceiptAnalysis)
    {init : List (String × ReceiptAnalysis)} (hinit : WfAssoc init) :
    WfAssoc (mergeSetFold f init items) := by
  induction items generalizing init with
  | nil => exact hinit
  | cons r rest ih =>
    simp only [mergeSetFold, List.foldl_cons]
    rcases hid : r.id with _ | i
    · exact ih hinit
    · exact ih (wfAssoc_setAssoc hinit ((hf r).trans hid))

theorem idsOf_valuesOf {m : List (String × ReceiptAnalysis)} (hm : WfAssoc m) :
    idsOf (valuesOf m) = m.map (fun p => p.1) := by
  induction m with
  | nil => simp [idsOf, valuesOf]
  | cons p rest ih =>
    have hrest : WfAssoc rest := fun q hq => hm q (List.mem_cons_of_mem _ hq)
    have hp : p.2.id = some p.1 := hm p (List.mem_cons_self _ _)
    simp only [idsOf, valuesOf, List.map_cons, List.filterMap_cons, hp]
    simpa [idsOf, valuesOf] using ih hrest

theorem mem_keys_iff_lookup {m : List (String × ReceiptAnalysis)} {k : String} :
    k ∈ m.map (fun p => p.1) ↔ (lookupAssoc m k).isSome := by
  induction m with
  | nil => simp [lookupAssoc]
  | cons p rest ih =>
    obtain ⟨k₀, v₀⟩ := p
    by_cases h₀ : k₀ = k
    · subst h₀
      simp [lookupAssoc]
    · have hne : ¬ k = k₀ := fun hh => h₀ hh.symm
      simp [lookupAssoc, h₀, hne, ih]

theorem mem_valuesOf_setAssoc {m : List (String × ReceiptAnalysis)} {k : String}
    {v v' : ReceiptAnalysis} (h : v' ∈ valuesOf (setAssoc m k v)) :
    v' ∈ valuesOf m ∨ v' = v := by
  induction m with
  | nil =>
    simp only [setAssoc, valuesOf, List.map_cons, List.map_nil,
      List.mem_singleton] at h
    exact Or.inr h
  | cons p rest ih =>
    obtain ⟨k₀, v₀⟩ := p
    by_cases h₀ : k₀ = k
    · subst h₀
      rw [show setAssoc ((k₀, v₀) :: rest) k₀ v = (k₀, v) :: rest from by
        simp [setAssoc]] at h
      simp only [valuesOf, List.map_cons, List.mem_cons] at h ⊢
      tauto
    · simp only [setAssoc, if_neg h₀, valuesOf, List.map_cons, List.mem_cons] at h ⊢
      rcases h with hh | hmem
      · exact Or.inl (Or.inl hh)
      · rcases ih hmem with hm | hv
        · exact Or.inl (Or.inr hm)
        · exact Or.inr hv

theorem mem_valuesOf_mergeSetFold {f : ReceiptAnalysis → ReceiptAnalysis}
    {items : List ReceiptAnalysis} {init : List (String × ReceiptAnalysis)}
    {v : ReceiptAnalysis} (h : v ∈ valuesOf (mergeSetFold f init items)) :
    v ∈ valuesOf init ∨ ∃ r ∈ items, v = f r := by
  induction items generalizing init with
  | nil => exact Or.inl h
  | cons r rest ih =>
    simp only [mergeSetFold, List.foldl_cons] at h
    rcases hid : r.id with _ | i
    · rw [hid] at h
      rcases ih h with hm | ⟨r', hr', hv⟩
      · exact Or.inl hm
      · exact Or.inr ⟨r', List.mem_cons_of_mem _ hr', hv⟩
    · rw [hid] at h
      rcases ih h with hm | ⟨r', hr', hv⟩
      · rcases mem_valuesOf_setAssoc hm with hm' | rfl
        · exact Or.inl hm'
        · exact Or.inr ⟨r, List.mem_cons_self _ _, rfl⟩
      · exact Or.inr ⟨r', List.mem_cons_of_mem _ hr', hv⟩

theorem mem_valuesOf_mergeKeepFold {userId : String}
    {items : List ReceiptAnalysis} {init : List (String × ReceiptAnalysis)}
    {v : ReceiptAnalysis} (h : v ∈ valuesOf (mergeKeepFold userId init items)) :
    v ∈ valuesOf init ∨ ∃ r ∈ items, v = { r with userId := some userId } := by
  induction items generalizing init with
  | nil => exact Or.inl h
  | cons r rest ih =>
    simp only [mergeKeepFold, List.foldl_cons] at h
    rcases hid : r.id with _ | i
    · rw [hid] at h
      rcases ih h with hm | ⟨r', hr', hv⟩
      · exact Or.inl hm
      · exact Or.inr ⟨r', List.mem_cons_of_mem _ hr', hv⟩
    · simp only [hid] at h
      by_cases hhas : hasAssoc init i
      · rw [if_pos hhas] at h
        rcases ih h with hm | ⟨r', hr', hv⟩
        · exact Or.inl hm
        · exact Or.inr ⟨r', List.mem_cons_of_mem _ hr', hv⟩
      · rw [if_neg hhas] at h
        rcases ih h with hm | ⟨r', hr', hv⟩
        · rcases mem_valuesOf_setAssoc hm with hm' | rfl
          · exact Or.inl hm'
          · exact Or.inr ⟨r, List.mem_cons_self _ _, by rw [hid]⟩
        · exact Or.inr ⟨r', List.mem_cons_of_mem _ hr', hv⟩

/-! ### getHistory characterizations -/

theorem trySetItem_some {s : State} {k : String} {v : StoredVal} {s' : State}
    (h : trySetItem s k v = some s') :
    s' = { s with store := setItem s.store k v } := by
  rcases hq : s.quota with _ | q
  · simp only [trySetItem, hq] at h
    rw [← Option.some_inj.mp h]
  · simp only [trySetItem, hq] at h
    by_cases hle : storeSize (setItem s.store k v) ≤ q
    · rw [if_pos hle] at h
      rw [← Option.some_inj.mp h]
    · rw [if_neg hle] at h
      cases h

theorem absorbLegacy_stuck {st : Storage} {hist : List ReceiptAnalysis}
    {k : String} (h : getItem st k = none ∨ getItem st k = some .notJson) :
    absorbLegacy st hist k = (hist, st) := by
  rcases h with h | h <;> simp [absorbLegacy, h]

theorem absorbLegacy_acc (st : Storage) (hist : List ReceiptAnalysis)
    (k : String) : ∃ add, (absorbLegacy st hist k).1 = hist ++ add := by
  unfold absorbLegacy
  rcases getItem st k with _ | v
  · exact ⟨[], by simp⟩
  · rcases v with l | _ | _
    · exact ⟨l, rfl⟩
    · exact ⟨[], by simp⟩
    · exact ⟨[], by simp⟩

theorem absorbLegacy_getItem_ne {st : Storage} {hist : List ReceiptAnalysis}
    {k k' : String} (h : k' ≠ k) :
    getItem (absorbLegacy st hist k).2 k' = getItem st k' := by
  unfold absorbLegacy
  rcases getItem st k with _ | v
  · rfl
  · rcases v with l | _ | _ <;> simp [getItem_removeItem_ne st h]

theorem getItem_removeItem_self (st : Storage) (k : String) :
    getItem (removeItem st k) k = none := by
  induction st with
  | nil => simp [removeItem, getItem]
  | cons p rest ih =>
    obtain ⟨k₀, v₀⟩ := p
    by_cases h₀ : k₀ = k
    · subst h₀
      simpa [removeItem] using ih
    · simpa [removeItem, getItem, h₀] using ih

theorem absorbLegacy_nil_getItem {st : Storage} {k : String}
    (h : (absorbLegacy st [] k).1 = []) :
    getItem (absorbLegacy st [] k).2 k = none ∨
      getItem (absorbLegacy st [] k).2 k = some .notJson := by
  rcases hv : getItem st k with _ | v
  · simp [absorbLegacy, hv]
  · rcases v with l | _ | _
    · have hl : l = [] := by simpa [absorbLegacy, hv] using h
      subst hl
      simp [absorbLegacy, hv, getItem_removeItem_self]
    · right
      simp [absorbLegacy, hv]
    · left
      simp [absorbLegacy, hv, getItem_removeItem_self]

theorem migrateAcc_getItem_cur (st : Storage) :
    getItem (migrateAcc st).2 CURRENT_LOCAL = getItem st CURRENT_LOCAL := by
  unfold migrateAcc
  rw [absorbLegacy_getItem_ne (by decide),
    absorbLegacy_getItem_ne (by decide)]

theorem migrateAcc_nil_stuck {st : Storage} (h : (migrateAcc st).1 = []) :
    migrateAcc (migrateAcc st).2 = ([], (migrateAcc st).2) := by
  have hM1 : (migrateAcc st).1 =
      (absorbLegacy (absorbLegacy st [] LEGACY_ONE).2
        (absorbLegacy st [] LEGACY_ONE).1 LEGACY_TWO).1 := rfl
  obtain ⟨a₂, ha₂⟩ := absorbLegacy_acc (absorbLegacy st [] LEGACY_ONE).2
    (absorbLegacy st [] LEGACY_ONE).1 LEGACY_TWO
  have h1nil : (absorbLegacy st [] LEGACY_ONE).1 = [] := by
    have h' := h
    rw [hM1, ha₂] at h'
    exact (List.append_eq_nil.mp h').1
  have hL1 : getItem (absorbLegacy st [] LEGACY_ONE).2 LEGACY_ONE = none ∨
      getItem (absorbLegacy st [] LEGACY_ONE).2 LEGACY_ONE = some .notJson :=
    absorbLegacy_nil_getItem h1nil
  have hM2 : (migrateAcc st).2 =
      (absorbLegacy (absorbLegacy st [] LEGACY_ONE).2 [] LEGACY_TWO).2 := by
    show (absorbLegacy (absorbLegacy st [] LEGACY_ONE).2
      (absorbLegacy st [] LEGACY_ONE).1 LEGACY_TWO).2 = _
    rw [h1nil]
  have hM1' : (absorbLegacy (absorbLegacy st [] LEGACY_ONE).2 [] LEGACY_TWO).1 = [] := by
    have h' := h
    rw [hM1] at h'
    rw [h1nil] at h'
    exact h'
  have hL2 : getItem (migrateAcc st).2 LEGACY_TWO = none ∨
      getItem (migrateAcc st).2 LEGACY_TWO = some .notJson := by
    rw [hM2]
    exact absorbLegacy_nil_getItem hM1'
  have hL1' : getItem (migrateAcc st).2 LEGACY_ONE = none ∨
      getItem (migrateAcc st).2 LEGACY_ONE = some .notJson := by
    rw [hM2, absorbLegacy_getItem_ne (by decide)]
    exact hL1
  show absorbLegacy (absorbLegacy (migrateAcc st).2 [] LEGACY_ONE).2
      (absorbLegacy (migrateAcc st).2 [] LEGACY_ONE).1 LEGACY_TWO =
    ([], (migrateAcc st).2)
  rw [absorbLegacy_stuck hL1']
  exact absorbLegacy_stuck hL2

theorem getHistory_eq_user {s : State} {u : String} (hu : s.currentUser = some u) :
    getHistory s = .ok (sortDesc (parseHistory (getItem s.store (cloudKey u)))) s := by
  simp [getHistory, hu, storageKeyOf]

theorem getHistory_eq_anon_ne {s : State} (hu : s.currentUser = none)
    (hne : parseHistory (getItem s.store CURRENT_LOCAL) ≠ []) :
    getHistory s = .ok (sortDesc (parseHistory (getItem s.store CURRENT_LOCAL))) s := by
  have hE : (parseHistory (getItem s.store CURRENT_LOCAL)).isEmpty = false := by
    simpa [List.isEmpty_iff] using hne
  simp [getHistory, hu, storageKeyOf, hE]

theorem getHistory_eq_anon_migrate_nil {s : State} (hu : s.currentUser = none)
    (hemp : parseHistory (getItem s.store CURRENT_LOCAL) = [])
    (hnil : (migrateAcc s.store).1 = []) :
    getHistory s = .ok [] { s with store := (migrateAcc s.store).2 } := by
  simp [getHistory, hu, storageKeyOf, hemp, hnil, sortDesc]

theorem getHistory_eq_anon_migrate_write {s s' : State}
    (hu : s.currentUser = none)
    (hemp : parseHistory (getItem s.store CURRENT_LOCAL) = [])
    (hnil : (migrateAcc s.store).1 ≠ [])
    (hset : trySetItem { s with store := (migrateAcc s.store).2 } CURRENT_LOCAL
      (.records (migrateAcc s.store).1) = some s') :
    getHistory s = .ok (sortDesc (migrateAcc s.store).1) s' := by
  have hE : ((migrateAcc s.store).1).isEmpty = false := by
    simpa [List.isEmpty_iff] using hnil
  rw [hu] at hset
  simp [getHistory, hu, storageKeyOf, hemp, hE, hset]

theorem getHistory_eq_anon_migrate_fail {s : State}
    (hu : s.currentUser = none)
    (hemp : parseHistory (getItem s.store CURRENT_LOCAL) = [])
    (hnil : (migrateAcc s.store).1 ≠ [])
    (hset : trySetItem { s with store := (migrateAcc s.store).2 } CURRENT_LOCAL
      (.records (migrateAcc s.store).1) = none) :
    getHistory s = .err .quotaExceeded { s with store := (migrateAcc s.store).2 } := by
  have hE : ((migrateAcc s.store).1).isEmpty = false := by
    simpa [List.isEmpty_iff] using hnil
  rw [hu] at hset
  simp [getHistory, hu, storageKeyOf, hemp, hE, hset]

/-- Inversion: the four ways a `getHistory` call can succeed. -/
theorem getHistory_cases {s : State} {l : List ReceiptAnalysis} {s₁ : State}
    (h : getHistory s = .ok l s₁) :
    (∃ u, s.currentUser = some u ∧
      l = sortDesc (parseHistory (getItem s.store (cloudKey u))) ∧ s₁ = s) ∨
    (s.currentUser = none ∧ parseHistory (getItem s.store CURRENT_LOCAL) ≠ [] ∧
      l = sortDesc (parseHistory (getItem s.store CURRENT_LOCAL)) ∧ s₁ = s) ∨
    (s.currentUser = none ∧ parseHistory (getItem s.store CURRENT_LOCAL) = [] ∧
      (migrateAcc s.store).1 = [] ∧ l = [] ∧
      s₁ = { s with store := (migrateAcc s.store).2 }) ∨
    (s.currentUser = none ∧ parseHistory (getItem s.store CURRENT_LOCAL) = [] ∧
      (migrateAcc s.store).1 ≠ [] ∧ l = sortDesc (migrateAcc s.store).1 ∧
      s₁ = { s with store := setItem (migrateAcc s.store).2 CURRENT_LOCAL (StoredVal.records (migrateAcc s.store).1) }) := by
  rcases hu : s.currentUser with _ | u
  · by_cases hemp : parseHistory (getItem s.store CURRENT_LOCAL) = []
    · by_cases hnil : (migrateAcc s.store).1 = []
      · rw [getHistory_eq_anon_migrate_nil hu hemp hnil] at h
        rw [Res.ok.injEq] at h
        rw [hu] at h
        exact Or.inr (Or.inr (Or.inl ⟨rfl, hemp, hnil, h.1.symm, h.2.symm⟩))
      · rcases hset : trySetItem { s with store := (migrateAcc s.store).2 }
            CURRENT_LOCAL (.records (migrateAcc s.store).1) with _ | s'
        · rw [getHistory_eq_anon_migrate_fail hu hemp hnil hset] at h
          cases h
        · rw [getHistory_eq_anon_migrate_write hu hemp hnil hset] at h
          rw [Res.ok.injEq] at h
          have hs' := trySetItem_some hset
          rw [hu] at hs'
          refine Or.inr (Or.inr (Or.inr ⟨rfl, hemp, hnil, h.1.symm, ?_⟩))
          rw [← h.2]
          exact hs'
    · rw [getHistory_eq_anon_ne hu hemp] at h
      rw [Res.ok.injEq] at h
      exact Or.inr (Or.inl ⟨rfl, hemp, h.1.symm, h.2.symm⟩)
  · rw [getHistory_eq_user hu] at h
    rw [Res.ok.injEq] at h
    exact Or.inl ⟨u, rfl, h.1.symm, h.2.symm⟩

theorem getHistory_ok_meta {s : State} {l : List ReceiptAnalysis} {s₁ : State}
    (h : getHistory s = .ok l s₁) :
    s₁.currentUser = s.currentUser ∧ s₁.quota = s.quota := by
  rcases getHistory_cases h with
    ⟨u, hu, hl, hs⟩ | ⟨hu, hne, hl, hs⟩ | ⟨hu, hemp, hnil, hl, hs⟩ |
    ⟨hu, hemp, hnil, hl, hs⟩ <;> subst hs <;> exact ⟨rfl, rfl⟩

/-- `getHistory` is idempotent: reading again right after a successful read
returns the same collection and changes nothing further (the legacy
migration runs at most once effectively). -/
theorem getHistory_idem {s : State} {l : List ReceiptAnalysis} {s₁ : State}
    (h : getHistory s = .ok l s₁) : getHistory s₁ = .ok l s₁ := by
  rcases getHistory_cases h with
    ⟨u, hu, hl, hs⟩ | ⟨hu, hne, hl, hs⟩ | ⟨hu, hemp, hnil, hl, hs⟩ |
    ⟨hu, hemp, hnil, hl, hs⟩
  · subst hs hl
    exact getHistory_eq_user hu
  · subst hs hl
    exact getHistory_eq_anon_ne hu hne
  · subst hl
    have hstore : s₁.store = (migrateAcc s.store).2 := by rw [hs]
    have hu₁ : s₁.currentUser = none := by
      rw [hs]
      exact hu
    have hemp₁ : parseHistory (getItem s₁.store CURRENT_LOCAL) = [] := by
      rw [hstore, migrateAcc_getItem_cur]
      exact hemp
    have hnil₁ : (migrateAcc s₁.store).1 = [] := by
      rw [hstore, migrateAcc_nil_stuck hnil]
    rw [getHistory_eq_anon_migrate_nil hu₁ hemp₁ hnil₁]
    have hX : ({ s₁ with store := (migrateAcc s₁.store).2 } : State) = s₁ := by
      have h2 : (migrateAcc s₁.store).2 = s₁.store := by
        rw [hstore, migrateAcc_nil_stuck hnil]
      rw [h2]
    rw [hX]
  · subst hl
    have hstore : s₁.store = setItem (migrateAcc s.store).2 CURRENT_LOCAL (StoredVal.records (migrateAcc s.store).1) := by rw [hs]
    have hu₁ : s₁.currentUser = none := by
      rw [hs]
      exact hu
    have hparse : parseHistory (getItem s₁.store CURRENT_LOCAL) = (migrateAcc s.store).1 := by
      rw [hstore, getItem_setItem_self]
      rfl
    have hne₁ : parseHistory (getItem s₁.store CURRENT_LOCAL) ≠ [] := by
      rw [hparse]
      exact hnil
    rw [getHistory_eq_anon_ne hu₁ hne₁, hparse]

/-! ### Concrete records for witnesses and counterexamples -/

/-- A record with id "A". -/
def recA : ReceiptAnalysis :=
  { id := some "A", userId := none, timestamp := some 10, exchangeRate := 21,
    sourceUrl := none, date := "2024-01-01", time := none, totalTwd := 100,
    totalJpy := some 460, items := [] }

/-- A different record sharing id "A" with `recA` (an id collision). -/
def recA2 : ReceiptAnalysis :=
  { recA with totalTwd := 200, timestamp := some 20 }

/-- An older record with id "old". -/
def recOld : ReceiptAnalysis :=
  { recA with id := some "old", timestamp := some 1, totalTwd := 50 }

/-- A cloud record with id "B" and no owner identity. -/
def recB : ReceiptAnalysis :=
  { recA with id := some "B", timestamp := some 5 }

/-! ### C7 -/

/-- C7: every collection returned by `getHistory` is sorted by creation
timestamp in descending order — for all adjacent pairs `(a, b)` of the
returned order, `a.createdAt ≥ b.createdAt` (the creation timestamp is the
`timestamp` field; the comparator defaults an absent one to 0). -/
theorem C7_getHistory_sorted_desc (s : State) (l : List ReceiptAnalysis)
    (s₁ : State) (h : getHistory s = .ok l s₁) :
    l.Chain' (fun a b => sortKey b ≤ sortKey a) := by
  rcases getHistory_cases h with
    ⟨u, hu, hl, hs⟩ | ⟨hu, hne, hl, hs⟩ | ⟨hu, hemp, hnil, hl, hs⟩ |
    ⟨hu, hemp, hnil, hl, hs⟩
  · subst hl
    exact (sortDesc_pairwise _).chain'
  · subst hl
    exact (sortDesc_pairwise _).chain'
  · subst hl
    exact List.chain'_nil
  · subst hl
    exact (sortDesc_pairwise _).chain'

/-- Witness for C7 at a concrete state: two records stored out of order come
back sorted newest-first. -/
theorem C7_getHistory_sorted_desc_witness :
    ([recA, recOld] : List ReceiptAnalysis).Chain'
      (fun a b => sortKey b ≤ sortKey a) :=
  C7_getHistory_sorted_desc
    { store := [(CURRENT_LOCAL, .records [recOld, recA])], currentUser := none,
      quota := none }
    [recA, recOld]
    { store := [(CURRENT_LOCAL, .records [recOld, recA])], currentUser := none,
      quota := none }
    (by decide)

/-! ### C9 -/

/-- C9: deleting an id that is not present in the namespace is a no-op, not
an error: the call returns exactly the collection `getHistory()` returned
before it (hence the same set of record ids), and persists it unchanged. -/
theorem C9_delete_missing_id_noop (d : String) (s : State)
    (prev : List ReceiptAnalysis) (s₁ : State)
    (hq : s.quota = none)
    (hgh : getHistory s = .ok prev s₁)
    (hd : d ∉ idsOf prev) :
    deleteFromHistory d s₁ =
      .ok prev { s₁ with store := setItem s₁.store (storageKeyOf s₁.currentUser) (StoredVal.records prev) } := by
  have hidem := getHistory_idem hgh
  have hmeta := getHistory_ok_meta hgh
  have hq₁ : s₁.quota = none := hmeta.2.trans hq
  have hfilter : prev.filter (fun r => r.id ≠ some d) = prev := by
    apply List.filter_eq_self.mpr
    intro a ha
    have hne : a.id ≠ some d := fun hcontra =>
      hd (List.mem_filterMap.mpr ⟨a, ha, hcontra⟩)
    simpa using hne
  unfold deleteFromHistory
  simp only [hidem, hfilter, trySetItem_quota_none _ _ _ hq₁]

/-- Witness for C9 at a concrete state: deleting the absent id "zzz". -/
theorem C9_delete_missing_id_noop_witness :
    deleteFromHistory "zzz"
      { store := [(CURRENT_LOCAL, .records [recOld, recA])], currentUser := none,
        quota := none } =
      .ok [recA, recOld]
        { store := [(CURRENT_LOCAL, .records [recA, recOld])], currentUser := none,
          quota := none } := by
  have h := C9_delete_missing_id_noop "zzz"
    { store := [(CURRENT_LOCAL, .records [recOld, recA])], currentUser := none,
      quota := none }
    [recA, recOld]
    { store := [(CURRENT_LOCAL, .records [recOld, recA])], currentUser := none,
      quota := none }
    (by decide) (by decide) (by decide)
  rw [h]
  decide

/-! ### C8 -/

/-- C8 counterexample: the claim says a malformed raw value makes
`getHistory` return the empty collection, but with data under a legacy key
the legacy migration absorbs and returns those records instead: here the
current anonymous value is unparseable, a legacy key holds one record, and
`getHistory` returns that record, not `[]`. -/
theorem C8_counterexample :
    getHistory { store := [(CURRENT_LOCAL, .notJson), (LEGACY_ONE, .records [recOld])], currentUser := none, quota := none } =
      .ok [recOld] { store := [(CURRENT_LOCAL, .records [recOld])], currentUser := none, quota := none } ∧
    ([recOld] : List ReceiptAnalysis) ≠ [] := by
  constructor
  · decide
  · decide

/-- C8 (amended): when the raw stored value for the resolved namespace is
malformed (unparseable, or parseable but not an array), `getHistory`
returns the empty collection without throwing — provided, for the
anonymous namespace, no legacy key holds data (otherwise the legacy
migration returns the absorbed legacy records instead); the state is left
unchanged. -/
theorem C8_getHistory_malformed_empty (s : State)
    (hm : getItem s.store (storageKeyOf s.currentUser) = some .notJson ∨
      getItem s.store (storageKeyOf s.currentUser) = some .nonArray)
    (hl₁ : s.currentUser = none → getItem s.store LEGACY_ONE = none)
    (hl₂ : s.currentUser = none → getItem s.store LEGACY_TWO = none) :
    getHistory s = .ok [] s := by
  rcases hu : s.currentUser with _ | u
  · rw [hu] at hm
    simp only [storageKeyOf] at hm
    have hemp : parseHistory (getItem s.store CURRENT_LOCAL) = [] := by
      rcases hm with hm | hm <;> rw [hm] <;> rfl
    have hmig : migrateAcc s.store = ([], s.store) := by
      show absorbLegacy (absorbLegacy s.store [] LEGACY_ONE).2
        (absorbLegacy s.store [] LEGACY_ONE).1 LEGACY_TWO = _
      rw [absorbLegacy_stuck (Or.inl (hl₁ hu))]
      exact absorbLegacy_stuck (Or.inl (hl₂ hu))
    have hres := getHistory_eq_anon_migrate_nil hu hemp (by rw [hmig])
    rw [hres, hmig]
  · rw [hu] at hm
    simp only [storageKeyOf] at hm
    have hemp : parseHistory (getItem s.store (cloudKey u)) = [] := by
      rcases hm with hm | hm <;> rw [hm] <;> rfl
    rw [getHistory_eq_user hu, hemp]
    rfl

/-- Witness for the amended C8 at a concrete state: the anonymous value is
the unparseable string and no legacy data exists; the read returns `[]`. -/
theorem C8_getHistory_malformed_empty_witness :
    getHistory { store := [(CURRENT_LOCAL, .notJson)], currentUser := none, quota := none } =
      .ok [] { store := [(CURRENT_LOCAL, .notJson)], currentUser := none, quota := none } :=
  C8_getHistory_malformed_empty
    { store := [(CURRENT_LOCAL, .notJson)], currentUser := none, quota := none }
    (Or.inl (by decide)) (fun _ => by decide) (fun _ => by decide)

/-! ### C2 -/

/-- C2 (code bug, evaluated at the failing input): with a user session
already current — exactly the situation of `App.tsx`'s `initializeApp`,
which awaits `syncLocalToCloud(currentUser.id)` — the sync reads its
"local" snapshot through `getHistory()`, which resolves to the **cloud**
namespace, and then removes the anonymous namespace unmerged.  Here the
anonymous namespace holds `recA` and the cloud namespace is empty before
the call; afterwards the cloud namespace is still empty and `recA` is
destroyed, instead of the union {A} the claim requires. -/
theorem C2_sync_loses_anonymous_records :
    getItem ([(CURRENT_LOCAL, StoredVal.records [recA])] : Storage) CURRENT_LOCAL =
      some (.records [recA]) ∧
    syncLocalToCloud "u1" { store := [(CURRENT_LOCAL, .records [recA])], currentUser := some "u1", quota := none } =
      .ok [] { store := [(cloudKey "u1", .records [])], currentUser := some "u1", quota := none } ∧
    getItem ([(cloudKey "u1", StoredVal.records [])] : Storage) CURRENT_LOCAL = none ∧
    parseHistory (getItem ([(cloudKey "u1", StoredVal.records [])] : Storage) (cloudKey "u1")) = [] := by
  refine ⟨by decide, by decide, by decide, by decide⟩

/-! ### C4 -/

/-- C4 counterexample: after a successful sync the merged cloud collection
can retain a record whose owner identity is *not* the given identity: a
pre-existing cloud record with no `userId` is kept as-is (the merge stamps
only records coming from the local pass), refuting the claim that every
record in the merged collection carries the given identity. -/
theorem C4_counterexample :
    syncLocalToCloud "u1" { store := [(cloudKey "u1", .records [recB])], currentUser := none, quota := none } =
      .ok [recB] { store := [(cloudKey "u1", .records [recB])], currentUser := none, quota := none } ∧
    recB.userId ≠ some "u1" := by
  refine ⟨by decide, by decide⟩

/-- C4 (amended): after `syncLocalToCloud(identity)` succeeds, every record
of the merged cloud collection either came unchanged from the pre-existing
cloud collection (keeping whatever owner identity it had, possibly absent
or stale) or carries `userId = identity`; only records merged in from the
local pass are stamped. -/
theorem C4_sync_stamps_only_local_records (userId : String) (s : State)
    (localData : List ReceiptAnalysis) (s₁ : State)
    (res : List ReceiptAnalysis) (s₂ : State)
    (hgh : getHistory s = .ok localData s₁)
    (hrun : syncLocalToCloud userId s = .ok res s₂) :
    ∀ r ∈ res, r ∈ parseHistory (getItem s₁.store (cloudKey userId)) ∨
      r.userId = some userId := by
  simp only [syncLocalToCloud, hgh] at hrun
  rcases hcv : getItem s₁.store (cloudKey userId) with _ | v
  case none =>
    simp only [hcv] at hrun
    rcases hset : trySetItem s₁ (cloudKey userId)
        (.records (sortDesc (valuesOf (mergeKeepFold userId
          (mergeSetFold (fun item => item) [] (parseHistory none)) localData)))) with _ | s'
    · simp only [hset] at hrun
      cases hrun
    · simp only [hset, Res.ok.injEq] at hrun
      intro r hr
      rw [← hrun.1] at hr
      rcases mem_valuesOf_mergeKeepFold (mem_sortDesc.mp hr) with hm | ⟨r', _, hv⟩
      · rcases mem_valuesOf_mergeSetFold hm with hm' | ⟨c, hc, hvc⟩
        · cases hm'
        · exact Or.inl (hvc ▸ hc)
      · exact Or.inr (by rw [hv])
  case some =>
    rcases v with l | _ | _
    case records =>
      simp only [hcv] at hrun
      rcases hset : trySetItem s₁ (cloudKey userId)
          (.records (sortDesc (valuesOf (mergeKeepFold userId
            (mergeSetFold (fun item => item) [] (parseHistory (some (.records l)))) localData)))) with _ | s'
      · simp only [hset] at hrun
        cases hrun
      · simp only [hset, Res.ok.injEq] at hrun
        intro r hr
        rw [← hrun.1] at hr
        rcases mem_valuesOf_mergeKeepFold (mem_sortDesc.mp hr) with hm | ⟨r', _, hv⟩
        · rcases mem_valuesOf_mergeSetFold hm with hm' | ⟨c, hc, hvc⟩
          · cases hm'
          · exact Or.inl (hvc ▸ hc)
        · exact Or.inr (by rw [hv])
    case notJson =>
      simp only [hcv] at hrun
      rcases hset : trySetItem s₁ (cloudKey userId)
          (.records (sortDesc (valuesOf (mergeKeepFold userId
            (mergeSetFold (fun item => item) [] (parseHistory (some .notJson))) localData)))) with _ | s'
      · simp only [hset] at hrun
        cases hrun
      · simp only [hset, Res.ok.injEq] at hrun
        intro r hr
        rw [← hrun.1] at hr
        rcases mem_valuesOf_mergeKeepFold (mem_sortDesc.mp hr) with hm | ⟨r', _, hv⟩
        · rcases mem_valuesOf_mergeSetFold hm with hm' | ⟨c, hc, hvc⟩
          · cases hm'
          · exact Or.inl (hvc ▸ hc)
        · exact Or.inr (by rw [hv])
    case nonArray =>
      simp only [hcv] at hrun
      cases hrun

/-- Witness for the amended C4: in the concrete sync of the C4
counterexample state, the surviving record satisfies the disjunction (it
came from the cloud). -/
theorem C4_sync_stamps_only_local_records_witness :
    recB ∈ parseHistory (getItem ([(cloudKey "u1", StoredVal.records [recB])] : Storage) (cloudKey "u1")) ∨
      recB.userId = some "u1" :=
  C4_sync_stamps_only_local_records "u1"
    { store := [(cloudKey "u1", .records [recB])], currentUser := none, quota := none }
    [] { store := [(cloudKey "u1", .records [recB])], currentUser := none, quota := none }
    [recB] { store := [(cloudKey "u1", .records [recB])], currentUser := none, quota := none }
    (by decide) (by decide) recB (by decide)

/-! ### C5 -/

/-- C5 counterexample: the claim mandates a drop-oldest-and-retry-once
recovery when the store rejects the write.  At this concrete state (quota
of one record, one old record stored) the first write is rejected, and a
retry after dropping the oldest record would fit (second conjunct), so the
claimed recovery would persist the new record and succeed — but
`saveReceiptToHistory` performs no recovery at all: it surfaces the quota
error immediately, with the store unchanged. -/
theorem C5_counterexample :
    saveReceiptToHistory recA 30 "ab" { store := [(CURRENT_LOCAL, .records [recOld])], currentUser := none, quota := some 1 } =
      .err .quotaExceeded { store := [(CURRENT_LOCAL, .records [recOld])], currentUser := none, quota := some 1 } ∧
    storeSize (setItem [(CURRENT_LOCAL, StoredVal.records [recOld])] CURRENT_LOCAL (.records [{ recA with timestamp := some 30 }])) ≤ 1 := by
  refine ⟨by decide, by decide⟩

/-- C5 (amended): `saveReceiptToHistory` attempts no recovery: when the
read phase succeeds and the single `setItem` is rejected, the call
surfaces the distinguishable quota error to the caller and leaves the
state exactly as after the read phase — no eviction, no retry — and the
new record is simply not persisted; the failure is signaled, never
silent. -/
theorem C5_save_write_failure_surfaces (data : ReceiptAnalysis) (now : Nat)
    (rnd : String) (s : State) (hist : List ReceiptAnalysis) (s₁ : State)
    (e : JsError) (s' : State)
    (hgh : getHistory s = .ok hist s₁)
    (hrun : saveReceiptToHistory data now rnd s = .err e s') :
    e = .quotaExceeded ∧ s' = s₁ := by
  simp only [saveReceiptToHistory, hgh] at hrun
  rcases hset : trySetItem s₁ (storageKeyOf s.currentUser)
      (.records ({ data with id := some (data.id.getD (genId now rnd)), timestamp := some now, userId := s.currentUser } :: hist)) with _ | s''
  · simp only [hset] at hrun
    rw [Res.err.injEq] at hrun
    exact ⟨hrun.1.symm, hrun.2.symm⟩
  · simp only [hset] at hrun
    cases hrun

/-- Witness for the amended C5 at the concrete full-store state. -/
theorem C5_save_write_failure_surfaces_witness :
    JsError.quotaExceeded = JsError.quotaExceeded ∧
    ({ store := [(CURRENT_LOCAL, StoredVal.records [recOld])], currentUser := none, quota := some 1 } : State) =
      { store := [(CURRENT_LOCAL, StoredVal.records [recOld])], currentUser := none, quota := some 1 } :=
  C5_save_write_failure_surfaces recA 30 "ab"
    { store := [(CURRENT_LOCAL, .records [recOld])], currentUser := none, quota := some 1 }
    [recOld]
    { store := [(CURRENT_LOCAL, .records [recOld])], currentUser := none, quota := some 1 }
    .quotaExceeded
    { store := [(CURRENT_LOCAL, .records [recOld])], currentUser := none, quota := some 1 }
    (by decide) (by decide)

/-! ### C6 -/

/-- C6 counterexample: uniqueness of stored ids fails for save sequences in
general — saving twice with the same explicit candidate id "A" produces a
collection whose ids are ["A", "A"], not pairwise distinct.  (The save path
uses `data.id || generated` and never checks the collection for an existing
id.) -/
theorem C6_counterexample :
    saveReceiptToHistory recA 1 "a" { store := [], currentUser := none, quota := none } =
      .ok { recA with timestamp := some 1 } { store := [(CURRENT_LOCAL, .records [{ recA with timestamp := some 1 }])], currentUser := none, quota := none } ∧
    saveReceiptToHistory recA 2 "b" { store := [(CURRENT_LOCAL, .records [{ recA with timestamp := some 1 }])], currentUser := none, quota := none } =
      .ok { recA with timestamp := some 2 } { store := [(CURRENT_LOCAL, .records [{ recA with timestamp := some 2 }, { recA with timestamp := some 1 }])], currentUser := none, quota := none } ∧
    ¬ (idsOf [{ recA with timestamp := some 2 }, { recA with timestamp := some 1 }]).Nodup := by
  refine ⟨by decide, by decide, by decide⟩

/-- C6 (amended): a save whose effective id (the candidate's own id, or the
generated `rec_<now>_<rnd>` when absent) is not already among the stored
ids preserves pairwise-distinct ids: the persisted collection is the new
record consed onto the read collection and its ids are `Nodup`.  Sequences
of saves keep all ids pairwise distinct exactly as long as every step
satisfies this freshness condition; the counterexample shows it is not
checked by the code. -/
theorem C6_save_fresh_id_preserves_unique_ids (data : ReceiptAnalysis)
    (now : Nat) (rnd : String) (s : State) (hist : List ReceiptAnalysis)
    (s₁ : State) (r : ReceiptAnalysis) (s₂ : State)
    (hgh : getHistory s = .ok hist s₁)
    (hnodup : (idsOf hist).Nodup)
    (hfresh : data.id.getD (genId now rnd) ∉ idsOf hist)
    (hrun : saveReceiptToHistory data now rnd s = .ok r s₂) :
    getItem s₂.store (storageKeyOf s.currentUser) = some (.records (r :: hist)) ∧
    (idsOf (r :: hist)).Nodup := by
  simp only [saveReceiptToHistory, hgh] at hrun
  rcases hset : trySetItem s₁ (storageKeyOf s.currentUser)
      (.records ({ data with id := some (data.id.getD (genId now rnd)), timestamp := some now, userId := s.currentUser } :: hist)) with _ | s''
  · simp only [hset] at hrun
    cases hrun
  · simp only [hset, Res.ok.injEq] at hrun
    obtain ⟨hr, hs⟩ := hrun
    have hs'' := trySetItem_some hset
    constructor
    · rw [← hs, hs'']
      rw [← hr]
      exact getItem_setItem_self _ _ _
    · rw [← hr]
      have hids : idsOf ({ data with id := some (data.id.getD (genId now rnd)), timestamp := some now, userId := s.currentUser } :: hist) =
          data.id.getD (genId now rnd) :: idsOf hist := by
        simp [idsOf]
      rw [hids]
      exact List.nodup_cons.mpr ⟨hfresh, hnodup⟩

/-- Witness for the amended C6: a save of a fresh id "A" over a stored
collection holding only id "old". -/
theorem C6_save_fresh_id_preserves_unique_ids_witness :
    getItem ([(CURRENT_LOCAL, StoredVal.records [{ recA with timestamp := some 30 }, recOld])] : Storage) (storageKeyOf none) =
      some (.records ({ recA with timestamp := some 30 } :: [recOld])) ∧
    (idsOf ({ recA with timestamp := some 30 } :: [recOld])).Nodup := by
  have h := C6_save_fresh_id_preserves_unique_ids recA 30 "ab"
    { store := [(CURRENT_LOCAL, .records [recOld])], currentUser := none, quota := none }
    [recOld]
    { store := [(CURRENT_LOCAL, .records [recOld])], currentUser := none, quota := none }
    { recA with timestamp := some 30 }
    { store := [(CURRENT_LOCAL, .records [{ recA with timestamp := some 30 }, recOld])], currentUser := none, quota := none }
    (by decide) (by decide) (by decide) (by decide)
  exact h

/-! ### Key-uniqueness lemmas for the merge maps -/

/-- The merge maps never hold two entries with the same key. -/
def KeysNodup (m : List (String × ReceiptAnalysis)) : Prop :=
  (m.map (fun p => p.1)).Nodup

theorem mem_keys_setAssoc {m : List (String × ReceiptAnalysis)} {k k' : String}
    {v : ReceiptAnalysis} :
    k' ∈ (setAssoc m k v).map (fun p => p.1) ↔ k = k' ∨ k' ∈ m.map (fun p => p.1) := by
  rw [mem_keys_iff_lookup, lookup_setAssoc]
  by_cases h : k = k'
  · simp [h]
  · rw [if_neg h, mem_keys_iff_lookup]
    exact ⟨fun hh => Or.inr hh, fun hh => hh.resolve_left h⟩

theorem keysNodup_setAssoc {m : List (String × ReceiptAnalysis)} {k : String}
    {v : ReceiptAnalysis} (hm : KeysNodup m) : KeysNodup (setAssoc m k v) := by
  induction m with
  | nil => simp [setAssoc, KeysNodup]
  | cons p rest ih =>
    obtain ⟨k₀, v₀⟩ := p
    rcases List.nodup_cons.mp hm with ⟨hk₀, hrest⟩
    by_cases h₀ : k₀ = k
    · subst h₀
      rw [show setAssoc ((k₀, v₀) :: rest) k₀ v = (k₀, v) :: rest from by
        simp [setAssoc]]
      exact List.nodup_cons.mpr ⟨hk₀, hrest⟩
    · rw [show setAssoc ((k₀, v₀) :: rest) k v = (k₀, v₀) :: setAssoc rest k v from by
        simp [setAssoc, h₀]]
      refine List.nodup_cons.mpr ⟨?_, ih hrest⟩
      intro hmem
      rcases mem_keys_setAssoc.mp hmem with rfl | hmem'
      · exact h₀ rfl
      · exact hk₀ hmem'

theorem keysNodup_mergeSetFold {f : ReceiptAnalysis → ReceiptAnalysis}
    (items : List ReceiptAnalysis) {init : List (String × ReceiptAnalysis)}
    (hinit : KeysNodup init) : KeysNodup (mergeSetFold f init items) := by
  induction items generalizing init with
  | nil => exact hinit
  | cons r rest ih =>
    simp only [mergeSetFold, List.foldl_cons]
    rcases hid : r.id with _ | i
    · exact ih hinit
    · exact ih (keysNodup_setAssoc hinit)

theorem lookup_of_mem {m : List (String × ReceiptAnalysis)} {k : String}
    {v : ReceiptAnalysis} (hN : KeysNodup m) (hmem : (k, v) ∈ m) :
    lookupAssoc m k = some v := by
  induction m with
  | nil => cases hmem
  | cons p rest ih =>
    obtain ⟨k₀, v₀⟩ := p
    rcases List.nodup_cons.mp hN with ⟨hk₀, hrest⟩
    rcases List.mem_cons.mp hmem with heq | hmem'
    · obtain ⟨hk, hv⟩ := Prod.mk.inj heq
      subst hk
      subst hv
      simp [lookupAssoc]
    · have hk : k ∈ rest.map (fun p => p.1) :=
        List.mem_map.mpr ⟨(k, v), hmem', rfl⟩
      by_cases h₀ : k₀ = k
      · exact absurd (h₀ ▸ hk) hk₀
      · simp only [lookupAssoc, if_neg h₀]
        exact ih hrest hmem'

theorem stampUser_id (u : Option String) (r : ReceiptAnalysis) :
    (stampUser u r).id = r.id := rfl

/-- Membership in the ids of a merged map built from scratch matches
membership in the ids of the input list, for any id-preserving stamp. -/
theorem mem_idsOf_mergeSetFold {f : ReceiptAnalysis → ReceiptAnalysis}
    (hf : ∀ r, (f r).id = r.id) (items : List ReceiptAnalysis) (k : String) :
    k ∈ idsOf (valuesOf (mergeSetFold f [] items)) ↔ k ∈ idsOf items := by
  have hwf : WfAssoc (mergeSetFold f [] items) :=
    wfAssoc_mergeSetFold hf items (fun p hp => by cases hp)
  rw [idsOf_valuesOf hwf, mem_keys_iff_lookup, lookup_mergeSetFold]
  rcases hlast : lastIdMatch k items with _ | r
  · simp only [lookupAssoc, Option.isSome_none, Bool.false_eq_true, false_iff]
    intro hmem
    rcases List.mem_filterMap.mp hmem with ⟨r, hr, hid⟩
    have : (lastIdMatch k items).isSome :=
      lastIdMatch_isSome_iff.mpr ⟨r, hr, hid⟩
    rw [hlast] at this
    cases this
  · simp only [Option.isSome_some, true_iff]
    have : (lastIdMatch k items).isSome := by rw [hlast]; rfl
    rcases lastIdMatch_isSome_iff.mp this with ⟨r', hr', hid'⟩
    exact List.mem_filterMap.mpr ⟨r', hr', hid'⟩

theorem idsOf_append (l₁ l₂ : List ReceiptAnalysis) :
    idsOf (l₁ ++ l₂) = idsOf l₁ ++ idsOf l₂ := by
  simp [idsOf]

/-! ### Run lemmas for export and import -/

theorem exportHistoryData_run {s : State} {cur : List ReceiptAnalysis}
    {s₁ : State} (hgh : getHistory s = .ok cur s₁) :
    exportHistoryData s = .ok (.jsonObj (some cur)) s₁ := by
  simp only [exportHistoryData, hgh]

theorem importHistoryData_notJson_run (s : State) :
    importHistoryData .notJson s = .err .formatError s := rfl

theorem importHistoryData_v1_0_objNone_run (u : Option String) (s : State) :
    importHistoryData_v1_0 (.jsonObj none) u s = .err .formatError s := rfl

/-- Successful run of the rev-1.3 import on an object payload: the merged
list is the last-set-wins fold over current-then-imported records, every
entry re-stamped with the ambient user, sorted and persisted. -/
theorem importHistoryData_obj_run (imp : List ReceiptAnalysis) (s : State)
    (cur : List ReceiptAnalysis) (s₁ : State)
    (hq : s.quota = none)
    (hgh : getHistory s = .ok cur s₁) :
    importHistoryData (.jsonObj (some imp)) s =
      .ok (sortDesc (valuesOf (mergeSetFold (stampUser s.currentUser) [] (cur ++ imp))))
        { s₁ with store := setItem s₁.store (storageKeyOf s.currentUser) (StoredVal.records (sortDesc (valuesOf (mergeSetFold (stampUser s.currentUser) [] (cur ++ imp))))) } := by
  have hmeta := getHistory_ok_meta hgh
  have hq₁ : s₁.quota = none := hmeta.2.trans hq
  simp only [importHistoryData, hgh, trySetItem_quota_none _ _ _ hq₁, stampUser,
    Option.getD_some]

/-- Successful run of the rev-1.3 import on an object payload lacking a
record array (`parsed.data || []` yields the empty import). -/
theorem importHistoryData_objNone_run (s : State)
    (cur : List ReceiptAnalysis) (s₁ : State)
    (hq : s.quota = none)
    (hgh : getHistory s = .ok cur s₁) :
    importHistoryData (.jsonObj none) s =
      .ok (sortDesc (valuesOf (mergeSetFold (stampUser s.currentUser) [] cur)))
        { s₁ with store := setItem s₁.store (storageKeyOf s.currentUser) (StoredVal.records (sortDesc (valuesOf (mergeSetFold (stampUser s.currentUser) [] cur)))) } := by
  have hmeta := getHistory_ok_meta hgh
  have hq₁ : s₁.quota = none := hmeta.2.trans hq
  simp only [importHistoryData, hgh, trySetItem_quota_none _ _ _ hq₁,
    Option.getD_none, List.append_nil]

/-! ### C1 -/

/-- C1 counterexample: the claim says the existing (primary) record's field
values survive an id collision on import.  Here the namespace holds `recA`
(id "A", totalTwd 100) and the backup payload holds `recA2` (same id "A",
totalTwd 200); after the import the persisted collection holds `recA2`'s
field values, not `recA`'s — the imported record won. -/
theorem C1_counterexample :
    importHistoryData (.jsonObj (some [recA2])) { store := [(CURRENT_LOCAL, .records [recA])], currentUser := none, quota := none } =
      .ok [recA2] { store := [(CURRENT_LOCAL, .records [recA2])], currentUser := none, quota := none } ∧
    recA2.totalTwd ≠ recA.totalTwd := by
  refine ⟨by decide, by decide⟩

/-- C1 (amended): import merging is keyed by record id, but on an id
collision the **imported** record wins (last `Map.set` wins over the
seeded current collection), and the surviving record is re-stamped with
the ambient user id: for any id `k` occurring in the imported list, the
merged and persisted collection contains exactly one record with id `k`,
namely the stamped last imported record with that id. -/
theorem C1_import_imported_wins (s : State) (cur : List ReceiptAnalysis)
    (s₁ : State) (imp : List ReceiptAnalysis) (k : String) (r : ReceiptAnalysis)
    (hq : s.quota = none)
    (hgh : getHistory s = .ok cur s₁)
    (hlast : lastIdMatch k imp = some r) :
    ∃ res s₂, importHistoryData (.jsonObj (some imp)) s = .ok res s₂ ∧
      stampUser s.currentUser r ∈ res ∧
      (∀ r' ∈ res, r'.id = some k → r' = stampUser s.currentUser r) ∧
      getItem s₂.store (storageKeyOf s.currentUser) = some (.records res) := by
  have hrun := importHistoryData_obj_run imp s cur s₁ hq hgh
  have hlook : lookupAssoc (mergeSetFold (stampUser s.currentUser) [] (cur ++ imp)) k =
      some (stampUser s.currentUser r) := by
    rw [lookup_mergeSetFold, lastIdMatch_append, hlast]
  have hwf : WfAssoc (mergeSetFold (stampUser s.currentUser) [] (cur ++ imp)) :=
    wfAssoc_mergeSetFold (stampUser_id s.currentUser) _ (fun q hq' => by cases hq')
  have hNodup : KeysNodup (mergeSetFold (stampUser s.currentUser) [] (cur ++ imp)) :=
    keysNodup_mergeSetFold _ (by simp [KeysNodup])
  refine ⟨_, _, hrun, ?_, ?_, ?_⟩
  · exact mem_sortDesc.mpr (List.mem_map.mpr ⟨_, lookup_mem hlook, rfl⟩)
  · intro r' hr' hid'
    rcases List.mem_map.mp (mem_sortDesc.mp hr') with ⟨p, hp, hpv⟩
    rcases p with ⟨pk, pv⟩
    have hpid : pv.id = some pk := hwf ⟨pk, pv⟩ hp
    have hpv' : pv = r' := hpv
    have hk : pk = k := by
      rw [hpv', hid'] at hpid
      exact (Option.some_inj.mp hpid).symm
    subst hk
    have hlookup := lookup_of_mem hNodup hp
    rw [hlook] at hlookup
    rw [← hpv']
    exact (Option.some_inj.mp hlookup).symm
  · exact getItem_setItem_self _ _ _

/-- Witness for the amended C1 at the concrete collision state of the
counterexample. -/
theorem C1_import_imported_wins_witness :
    ∃ res s₂, importHistoryData (.jsonObj (some [recA2])) { store := [(CURRENT_LOCAL, .records [recA])], currentUser := none, quota := none } = .ok res s₂ ∧
      stampUser none recA2 ∈ res ∧
      (∀ r' ∈ res, r'.id = some "A" → r' = stampUser none recA2) ∧
      getItem s₂.store (storageKeyOf none) = some (.records res) :=
  C1_import_imported_wins
    { store := [(CURRENT_LOCAL, .records [recA])], currentUser := none, quota := none }
    [recA]
    { store := [(CURRENT_LOCAL, .records [recA])], currentUser := none, quota := none }
    [recA2] "A" recA2 (by decide) (by decide) (by decide)

/-! ### C3 -/

/-- C3 counterexample: the claim says importing the payload `"{}"` (which
parses but has no record array) fails with a format error and performs no
write.  In the current revision the call **succeeds**: `parsed.data || []`
turns the missing array into an empty import, the merge re-persists the
(re-stamped) current collection and returns it. -/
theorem C3_counterexample :
    importHistoryData (.jsonObj none) { store := [(CURRENT_LOCAL, .records [recA])], currentUser := none, quota := none } =
      .ok [recA] { store := [(CURRENT_LOCAL, .records [recA])], currentUser := none, quota := none } := by
  decide

/-- C3 (amended): in the current revision, the claimed behavior — fail
with the format error and perform no import write — holds for a payload
that fails `JSON.parse` (the state is untouched) and for a payload whose
`data` field is truthy but not an array (spreading it throws, caught and
rethrown as the format error; the state is the one after the read phase,
no merge is written).  But for the claim's own payload `"{}"` — parseable
with no record array present, so `parsed.data || []` yields `[]` — the
call does NOT fail: it is treated as an empty import, succeeds, and
persists a collection with exactly the id set it already had (records
re-stamped with the ambient user and re-sorted).  The earlier revision
1.0 (lines 53-77) behaves as the claim states, rejecting `"{}"` with a
format error and no write. -/
theorem C3_import_bad_payload :
    (∀ s : State, importHistoryData .notJson s = .err .formatError s) ∧
    (∀ (s : State) (cur : List ReceiptAnalysis) (s₁ : State),
      getHistory s = .ok cur s₁ →
      importHistoryData .jsonObjBadData s = .err .formatError s₁) ∧
    (∀ (s : State) (cur : List ReceiptAnalysis) (s₁ : State),
      s.quota = none → getHistory s = .ok cur s₁ →
      ∃ res s₂, importHistoryData (.jsonObj none) s = .ok res s₂ ∧
        (∀ k, k ∈ idsOf res ↔ k ∈ idsOf cur) ∧
        getItem s₂.store (storageKeyOf s.currentUser) = some (.records res)) ∧
    (∀ (u : Option String) (s : State),
      importHistoryData_v1_0 (.jsonObj none) u s = .err .formatError s) := by
  refine ⟨importHistoryData_notJson_run, ?_, ?_, importHistoryData_v1_0_objNone_run⟩
  · intro s cur s₁ hgh
    simp only [importHistoryData, hgh]
  · intro s cur s₁ hq hgh
    have hrun := importHistoryData_objNone_run s cur s₁ hq hgh
    refine ⟨_, _, hrun, ?_, ?_⟩
    · intro k
      rw [idsOf_sortDesc_mem, mem_idsOf_mergeSetFold (stampUser_id _)]
    · exact getItem_setItem_self _ _ _

/-- Witness for the amended C3 at concrete states. -/
theorem C3_import_bad_payload_witness :
    importHistoryData .notJson { store := [], currentUser := none, quota := none } =
      .err .formatError { store := [], currentUser := none, quota := none } ∧
    importHistoryData .jsonObjBadData { store := [(CURRENT_LOCAL, .records [recA])], currentUser := none, quota := none } =
      .err .formatError { store := [(CURRENT_LOCAL, .records [recA])], currentUser := none, quota := none } ∧
    (∃ res s₂, importHistoryData (.jsonObj none) { store := [(CURRENT_LOCAL, .records [recA])], currentUser := none, quota := none } = .ok res s₂ ∧
      (∀ k, k ∈ idsOf res ↔ k ∈ idsOf [recA]) ∧
      getItem s₂.store (storageKeyOf none) = some (.records res)) ∧
    importHistoryData_v1_0 (.jsonObj none) none { store := [(CURRENT_LOCAL, .records [recA])], currentUser := none, quota := none } =
      .err .formatError { store := [(CURRENT_LOCAL, .records [recA])], currentUser := none, quota := none } := by
  refine ⟨C3_import_bad_payload.1 _, ?_, ?_, C3_import_bad_payload.2.2.2 none _⟩
  · exact C3_import_bad_payload.2.1
      { store := [(CURRENT_LOCAL, .records [recA])], currentUser := none, quota := none }
      [recA]
      { store := [(CURRENT_LOCAL, .records [recA])], currentUser := none, quota := none }
      (by decide)
  · exact C3_import_bad_payload.2.2.1
      { store := [(CURRENT_LOCAL, .records [recA])], currentUser := none, quota := none }
      [recA]
      { store := [(CURRENT_LOCAL, .records [recA])], currentUser := none, quota := none }
      (by decide) (by decide)

/-! ### C10 -/

/-- C10: export/import round-trip — importing the payload produced by
`exportHistoryData` succeeds, and both the returned and the persisted
collection carry exactly the same set of record ids as `getHistory()`
returned before the round-trip (records may be re-stamped with the ambient
user id and re-deduplicated, but the id set is preserved). -/
theorem C10_export_import_roundtrip (s : State) (prev : List ReceiptAnalysis)
    (s₁ : State) (hq : s.quota = none) (hgh : getHistory s = .ok prev s₁) :
    ∃ res s₂,
      exportHistoryData s = .ok (.jsonObj (some prev)) s₁ ∧
      importHistoryData (.jsonObj (some prev)) s₁ = .ok res s₂ ∧
      (∀ k, k ∈ idsOf res ↔ k ∈ idsOf prev) ∧
      getItem s₂.store (storageKeyOf s.currentUser) = some (.records res) := by
  have hexp := exportHistoryData_run hgh
  have hidem := getHistory_idem hgh
  have hmeta := getHistory_ok_meta hgh
  have hq₁ : s₁.quota = none := hmeta.2.trans hq
  have hrun := importHistoryData_obj_run prev s₁ prev s₁ hq₁ hidem
  refine ⟨_, _, hexp, hrun, ?_, ?_⟩
  · intro k
    rw [idsOf_sortDesc_mem, mem_idsOf_mergeSetFold (stampUser_id _), idsOf_append,
      List.mem_append, or_self]
  · rw [← hmeta.1]
    exact getItem_setItem_self _ _ _

/-- Witness for C10 at a concrete two-record state. -/
theorem C10_export_import_roundtrip_witness :
    ∃ res s₂,
      exportHistoryData { store := [(CURRENT_LOCAL, .records [recOld, recA])], currentUser := none, quota := none } =
        .ok (.jsonObj (some [recA, recOld])) { store := [(CURRENT_LOCAL, .records [recOld, recA])], currentUser := none, quota := none } ∧
      importHistoryData (.jsonObj (some [recA, recOld])) { store := [(CURRENT_LOCAL, .records [recOld, recA])], currentUser := none, quota := none } = .ok res s₂ ∧
      (∀ k, k ∈ idsOf res ↔ k ∈ idsOf [recA, recOld]) ∧
      getItem s₂.store (storageKeyOf none) = some (.records res) :=
  C10_export_import_roundtrip
    { store := [(CURRENT_LOCAL, .records [recOld, recA])], currentUser := none, quota := none }
    [recA, recOld]
    { store := [(CURRENT_LOCAL, .records [recOld, recA])], currentUser := none, quota := none }
    (by decide) (by decide)
